import Mathlib

/-!
Shallow embedding of the resilience library (`src/resilience/backoff.py` and
`src/resilience/retry.py`): exponential backoff strategies and the
`RetryOnException` retry decorator, together with proofs of the specified
properties.

Numbers (wait times, `base`, bounds, and the values returned by the injected
random source) are modelled as rationals; Python's `base << counter` is the
multiplication `base * 2 ^ counter`. Generators are modelled by explicit
state passing: one production is a step `state → value × state`. For the
claims about the instance counter, generator suspension is modelled
explicitly: `ExponentialBackoff.resume` performs the counter increment of
line 72 only when a suspended generator is resumed after its yield, so the
instance counter lags the productions by one. The backoff
iterator consumed by the retry loop is materialized as the list of values it
yields; an infinite iterator contributes an arbitrarily long prefix, of which
the loop consumes at most one element per attempt.
-/

namespace Resilience

/-- State of an `ExponentialBackoff` instance (`backoff.py`, lines 55-65):
`base`, `min_wait_seconds`, `max_wait_seconds` as given to `__init__`, and
the mutable `counter`, set to `0` by `__init__`. -/
structure ExponentialBackoff where
  base : ℚ
  min_wait_seconds : ℚ
  max_wait_seconds : ℚ
  counter : ℕ
deriving Repr, DecidableEq

/-- `ExponentialBackoff.__init__`: stores the three parameters and starts
`counter` at `0`. -/
def ExponentialBackoff.init (base min_wait_seconds max_wait_seconds : ℚ) :
    ExponentialBackoff :=
  { base := base
    min_wait_seconds := min_wait_seconds
    max_wait_seconds := max_wait_seconds
    counter := 0 }

/-- The value-stream view of one production of the generator in
`ExponentialBackoff.__call__` (`backoff.py`, lines 67-72): the value
`max(min_wait_seconds, min(base << counter, max_wait_seconds))` with the
counter increment of line 72 folded into the step
(`base << counter` is `base * 2 ^ counter`). Within a single generator
this reproduces the produced value stream exactly
(`ExponentialBackoff.genValue_eq_value`); the faithful instance-state
step, which performs the increment only on resumption after the yield, is
`ExponentialBackoff.resume`. -/
def ExponentialBackoff.next (s : ExponentialBackoff) : ℚ × ExponentialBackoff :=
  (max s.min_wait_seconds (min (s.base * 2 ^ s.counter) s.max_wait_seconds),
   { s with counter := s.counter + 1 })

/-- The instance state after `n` productions. -/
def ExponentialBackoff.after (s : ExponentialBackoff) : ℕ → ExponentialBackoff
  | 0 => s
  | n + 1 => (ExponentialBackoff.after s n).next.2

/-- The `n`-th value produced from state `s` (`n = 0` is the next value). -/
def ExponentialBackoff.value (s : ExponentialBackoff) (n : ℕ) : ℚ :=
  (s.after n).next.1

/-- The list of the first `n` values produced from state `s`. -/
def ExponentialBackoff.take (s : ExponentialBackoff) : ℕ → List ℚ
  | 0 => []
  | n + 1 => s.next.1 :: ExponentialBackoff.take s.next.2 n

/-- One pull (`next(g)`) on a generator returned by
`ExponentialBackoff.__call__`, over instance state `s`, with Python's
suspension semantics. If the generator is suspended at the yield
(`started = true`), resuming it first executes
`self.counter = self.counter + 1` (`backoff.py`, line 72); a fresh
generator (`started = false`) reads the instance counter as it is. The
loop body then computes
`upper_limit = min(base << counter, max_wait_seconds)` and yields
`max(min_wait_seconds, upper_limit)`, suspending again. Returns the
yielded value and the updated instance state; after any pull the
generator is suspended (`started = true` thereafter). -/
def ExponentialBackoff.resume (s : ExponentialBackoff) (started : Bool) :
    ℚ × ExponentialBackoff :=
  let t := if started then { s with counter := s.counter + 1 } else s
  (max t.min_wait_seconds (min (t.base * 2 ^ t.counter) t.max_wait_seconds),
   t)

/-- Instance state and generator suspension flag after `n` pulls on a
fresh generator over instance state `s`. -/
def ExponentialBackoff.genState (s : ExponentialBackoff) :
    ℕ → ExponentialBackoff × Bool
  | 0 => (s, false)
  | n + 1 =>
    let p := ExponentialBackoff.genState s n
    ((p.1.resume p.2).2, true)

/-- The `n`-th value (0-indexed) pulled from a fresh generator over
instance state `s`, under the suspension semantics. -/
def ExponentialBackoff.genValue (s : ExponentialBackoff) (n : ℕ) : ℚ :=
  ((s.genState n).1.resume (s.genState n).2).1

/-- State of an `ExponentialBackoffWithJitter` instance (`backoff.py`,
lines 105-121): its own `base`, an internally held `ExponentialBackoff`
built with the same parameters, `min_wait_seconds`, the injected
`random_number_gen`, and its own (never read) `counter`. -/
structure ExponentialBackoffWithJitter where
  base : ℚ
  exponential_backoff : ExponentialBackoff
  min_wait_seconds : ℚ
  random_number_gen : ℚ → ℚ → ℚ
  counter : ℕ

/-- `ExponentialBackoffWithJitter.__init__`: builds the internal
`ExponentialBackoff` with the same `base`/`min_wait_seconds`/
`max_wait_seconds` and starts the (unused) own counter at `0`. -/
def ExponentialBackoffWithJitter.init
    (base min_wait_seconds max_wait_seconds : ℚ)
    (random_number_gen : ℚ → ℚ → ℚ) : ExponentialBackoffWithJitter :=
  { base := base
    exponential_backoff :=
      ExponentialBackoff.init base min_wait_seconds max_wait_seconds
    min_wait_seconds := min_wait_seconds
    random_number_gen := random_number_gen
    counter := 0 }

/-- One production of the generator in
`ExponentialBackoffWithJitter.__call__` (`backoff.py`, lines 123-126):
pulls `wait_time` from the internal `ExponentialBackoff`, draws
`random_wait = random_number_gen(0, wait_time)`, and yields
`max(min_wait_seconds, random_wait)`. Only the internal strategy's state
advances. -/
def ExponentialBackoffWithJitter.next (j : ExponentialBackoffWithJitter) :
    ℚ × ExponentialBackoffWithJitter :=
  (max j.min_wait_seconds
    (j.random_number_gen 0 j.exponential_backoff.next.1),
   { j with exponential_backoff := j.exponential_backoff.next.2 })

/-- The jitter instance state after `n` productions. -/
def ExponentialBackoffWithJitter.after (j : ExponentialBackoffWithJitter) :
    ℕ → ExponentialBackoffWithJitter
  | 0 => j
  | n + 1 => (ExponentialBackoffWithJitter.after j n).next.2

/-- Outcome of one wrapped call (`retry.py`, `wrapped`): the operation's
result is returned (`ok`), an exception raised by the operation is
propagated unchanged (`err`), or the final
`raise Exception("Critical bug in RetryOnException...")` after the loop
fires (`internalBug`), which is distinct from any operation error. -/
inductive RetryResult (α ε : Type) where
  | ok : α → RetryResult α ε
  | err : ε → RetryResult α ε
  | internalBug : RetryResult α ε
deriving Repr, DecidableEq

/-- Observable record of one wrapped call: its result, how many times the
wrapped operation was invoked, and the list of waits passed to
`time.sleep`, in order. -/
structure RunOutcome (α ε : Type) where
  result : RetryResult α ε
  calls : ℕ
  sleeps : List ℚ
deriving Repr, DecidableEq

/-- The loop body of `wrapped` in `RetryOnException.__call__` (`retry.py`,
lines 77-91). `waits` is the list of values yielded by
`self.backoff_strategy()` (an infinite iterator contributes an arbitrarily
long prefix), `i` the `enumerate` index, `op` maps the attempt number
`i + 1` to the operation's outcome, and `retryable e` says whether
`except self.retry_on_exceptions` catches `e`. An uncaught exception
propagates at once; a caught one is re-raised when
`attempt_number == self.max_retries`, otherwise the loop sleeps for `wait`
and continues; an exhausted iterator reaches the final raise. -/
def retryRun {α ε : Type} (max_retries : ℤ) (retryable : ε → Bool)
    (op : ℕ → Except ε α) : ℕ → List ℚ → RunOutcome α ε
  | _, [] => ⟨RetryResult.internalBug, 0, []⟩
  | i, wait :: rest =>
    match op (i + 1) with
    | Except.ok a => ⟨RetryResult.ok a, 1, []⟩
    | Except.error e =>
      if retryable e then
        if ((i : ℤ) + 1) = max_retries then ⟨RetryResult.err e, 1, []⟩
        else
          let r := retryRun max_retries retryable op (i + 1) rest
          ⟨r.result, r.calls + 1, wait :: r.sleeps⟩
      else ⟨RetryResult.err e, 1, []⟩

/-- One wrapped call: the loop starts at `enumerate` index `0`, so the
first attempt is numbered `1`. -/
def RetryOnException.call {α ε : Type} (max_retries : ℤ)
    (retryable : ε → Bool) (op : ℕ → Except ε α) (waits : List ℚ) :
    RunOutcome α ε :=
  retryRun max_retries retryable op 0 waits

/-- Exception classes, for the classifier built by
`RetryOnException.__init__`: the root `Exception` class or one of its
(direct) subclasses, identified by a tag. -/
inductive ExcClass where
  | exceptionBase : ExcClass
  | leaf : ℕ → ExcClass
deriving Repr, DecidableEq

/-- `isinstance(e, cls)` for this flat hierarchy: every exception is an
instance of `Exception`, and of its own class. -/
def ExcClass.isinstance (e cls : ExcClass) : Bool :=
  cls == ExcClass.exceptionBase || cls == e

/-- Whether `except tup` catches an exception of class `e`: `e` is an
instance of some class in the tuple. -/
def caughtBy (tup : List ExcClass) (e : ExcClass) : Bool :=
  tup.any fun cls => ExcClass.isinstance e cls

/-- `RetryOnException.__init__` (`retry.py`, line 70):
`self.retry_on_exceptions = tuple(retry_on_exceptions) if
retry_on_exceptions else (Exception,)` — a `None` argument and an empty
list are both falsy and yield the tuple `(Exception,)`. -/
def initRetryOn (retry_on_exceptions : Option (List ExcClass)) :
    List ExcClass :=
  match retry_on_exceptions with
  | none => [ExcClass.exceptionBase]
  | some l => if l.isEmpty then [ExcClass.exceptionBase] else l

/-! Helper lemmas about the plain exponential strategy. -/

lemma ExponentialBackoff.after_eq (s : ExponentialBackoff) (n : ℕ) :
    s.after n = { s with counter := s.counter + n } := by
  induction n with
  | zero => rfl
  | succ n ih =>
    simp [ExponentialBackoff.after, ih, ExponentialBackoff.next,
      Nat.add_assoc]

lemma ExponentialBackoff.value_eq (s : ExponentialBackoff) (n : ℕ) :
    s.value n =
      max s.min_wait_seconds
        (min (s.base * 2 ^ (s.counter + n)) s.max_wait_seconds) := by
  simp [ExponentialBackoff.value, ExponentialBackoff.after_eq,
    ExponentialBackoff.next]

lemma ExponentialBackoff.value_le_max (s : ExponentialBackoff) (n : ℕ)
    (hmm : s.min_wait_seconds ≤ s.max_wait_seconds) :
    s.value n ≤ s.max_wait_seconds := by
  rw [ExponentialBackoff.value_eq]
  exact max_le hmm (min_le_right _ _)

lemma ExponentialBackoff.value_mono (s : ExponentialBackoff)
    (hb : 0 < s.base) : Monotone s.value := by
  apply monotone_nat_of_le_succ
  intro n
  rw [ExponentialBackoff.value_eq, ExponentialBackoff.value_eq]
  apply max_le_max le_rfl
  apply min_le_min _ le_rfl
  apply mul_le_mul_of_nonneg_left _ hb.le
  exact pow_le_pow_right₀ one_le_two (by omega)

lemma ExponentialBackoff.genState_succ_eq (s : ExponentialBackoff)
    (n : ℕ) :
    s.genState (n + 1) = ({ s with counter := s.counter + n }, true) := by
  induction n with
  | zero =>
    show ((s.resume false).2, true) = _
    rfl
  | succ n ih =>
    show (((s.genState (n + 1)).1.resume (s.genState (n + 1)).2).2, true) = _
    rw [ih]
    rfl

lemma ExponentialBackoff.genValue_eq_value (s : ExponentialBackoff)
    (n : ℕ) : s.genValue n = s.value n := by
  cases n with
  | zero =>
    rw [ExponentialBackoff.value_eq]
    show (s.resume false).1 = _
    rfl
  | succ n =>
    show ((s.genState (n + 1)).1.resume (s.genState (n + 1)).2).1 =
      s.value (n + 1)
    rw [ExponentialBackoff.genState_succ_eq, ExponentialBackoff.value_eq]
    rfl

/-- C1: for an `ExponentialBackoff` configured with positive `base` and
`min_wait_seconds ≤ max_wait_seconds`, the `n`-th value produced from a
fresh strategy (counter starting at 0) is
`max(min_wait_seconds, min(base * 2 ^ n, max_wait_seconds))`, i.e.
`clamp(base * 2 ^ n, min_wait_seconds, max_wait_seconds)`. -/
theorem exponentialBackoff_nth_value (base min_w max_w : ℚ)
    (hb : 0 < base) (hmm : min_w ≤ max_w) (n : ℕ) :
    (ExponentialBackoff.init base min_w max_w).value n =
      max min_w (min (base * 2 ^ n) max_w) := by
  simp [ExponentialBackoff.value_eq, ExponentialBackoff.init]

theorem exponentialBackoff_nth_value_witness :
    (ExponentialBackoff.init 1 0 30).value 3 =
      max 0 (min ((1 : ℚ) * 2 ^ 3) 30) :=
  exponentialBackoff_nth_value 1 0 30 (by norm_num) (by norm_num) 3

/-- C5 is false of the program: on a fresh instance (`base = 1`,
`min_wait_seconds = 0`, `max_wait_seconds = 100`) the first production
(value 1) leaves the instance counter at 0 — the increment is deferred to
the generator's next resumption (`backoff.py`, line 72) — and a new
sequence started from the instance after that production yields 1 again,
repeating the previous value instead of the value 2 that continuing the
overall sequence would give. -/
theorem exponentialBackoff_counter_claim_cex :
    ((ExponentialBackoff.init 1 0 100).resume false).2.counter ≠
      (ExponentialBackoff.init 1 0 100).counter + 1 ∧
    ((ExponentialBackoff.init 1 0 100).genState 1).1.genValue 0 ≠
      (ExponentialBackoff.init 1 0 100).genValue 1 ∧
    ((ExponentialBackoff.init 1 0 100).genState 1).1.genValue 0 =
      (ExponentialBackoff.init 1 0 100).genValue 0 := by
  refine ⟨by decide, ?_, rfl⟩
  show (ExponentialBackoff.init 1 0 100).genValue 0 ≠
    (ExponentialBackoff.init 1 0 100).genValue 1
  rw [ExponentialBackoff.genValue_eq_value,
    ExponentialBackoff.genValue_eq_value, ExponentialBackoff.value_eq,
    ExponentialBackoff.value_eq]
  norm_num [ExponentialBackoff.init, min_def, max_def]

/-- C5 (amended): the attempt counter is state of the strategy instance,
shared by all sequences, but the increment for a production happens only
when the generator is resumed after its yield: a resumption-production
increments the instance counter by exactly 1, a generator's first
production leaves it unchanged, and after `n + 1` productions the counter
has advanced by exactly `n`. A new sequence started from the instance
after `k + 1` earlier productions is not reset to 0: it continues from
the instance's current (one-behind) counter, so its `n`-th value is the
earlier sequence's `(k + n)`-th value — its first value repeats the last
value produced rather than continuing with the next. -/
theorem exponentialBackoff_counter_deferred (s : ExponentialBackoff) :
    (s.resume true).2.counter = s.counter + 1 ∧
    (s.resume false).2.counter = s.counter ∧
    (∀ n : ℕ, (s.genState (n + 1)).1.counter = s.counter + n) ∧
    ∀ k n : ℕ,
      (s.genState (k + 1)).1.genValue n = s.genValue (k + n) := by
  refine ⟨rfl, rfl, fun n => ?_, fun k n => ?_⟩
  · rw [ExponentialBackoff.genState_succ_eq]
  · rw [ExponentialBackoff.genState_succ_eq,
      ExponentialBackoff.genValue_eq_value,
      ExponentialBackoff.genValue_eq_value,
      ExponentialBackoff.value_eq, ExponentialBackoff.value_eq]
    have h : s.counter + k + n = s.counter + (k + n) := by omega
    simp [h]

/-- C7: with positive `base` and `min_wait_seconds ≤ max_wait_seconds`, the
produced sequence is non-decreasing, and from any position where it equals
`max_wait_seconds` onward it stays equal to `max_wait_seconds`. -/
theorem exponentialBackoff_monotone_saturates (base min_w max_w : ℚ)
    (hb : 0 < base) (hmm : min_w ≤ max_w) :
    (∀ n, (ExponentialBackoff.init base min_w max_w).value n ≤
        (ExponentialBackoff.init base min_w max_w).value (n + 1)) ∧
    ∀ n m, (ExponentialBackoff.init base min_w max_w).value n = max_w →
      n ≤ m → (ExponentialBackoff.init base min_w max_w).value m = max_w := by
  have hmono : Monotone (ExponentialBackoff.init base min_w max_w).value :=
    ExponentialBackoff.value_mono _ hb
  refine ⟨fun n => hmono (Nat.le_succ n), fun n m hn hnm => ?_⟩
  have h1 := hmono hnm
  rw [hn] at h1
  exact le_antisymm (ExponentialBackoff.value_le_max _ _ hmm) h1

theorem exponentialBackoff_monotone_saturates_witness :
    (∀ n, (ExponentialBackoff.init 1 0 30).value n ≤
        (ExponentialBackoff.init 1 0 30).value (n + 1)) ∧
    ∀ n m, (ExponentialBackoff.init 1 0 30).value n = 30 →
      n ≤ m → (ExponentialBackoff.init 1 0 30).value m = 30 :=
  exponentialBackoff_monotone_saturates 1 0 30 (by norm_num) (by norm_num)

/-- The underlying value the jitter generator's next production draws its
randomness from: the next value of the internal `ExponentialBackoff`. -/
def ExponentialBackoffWithJitter.underlying (j : ExponentialBackoffWithJitter) :
    ℚ :=
  j.exponential_backoff.next.1

/-- The `n`-th value produced from jitter state `j`. -/
def ExponentialBackoffWithJitter.value (j : ExponentialBackoffWithJitter)
    (n : ℕ) : ℚ :=
  (j.after n).next.1

lemma ExponentialBackoffWithJitter.after_init
    (base min_w max_w : ℚ) (rng : ℚ → ℚ → ℚ) (n : ℕ) :
    (ExponentialBackoffWithJitter.init base min_w max_w rng).after n =
      { base := base
        exponential_backoff :=
          (ExponentialBackoff.init base min_w max_w).after n
        min_wait_seconds := min_w
        random_number_gen := rng
        counter := 0 } := by
  induction n with
  | zero => rfl
  | succ n ih =>
    simp [ExponentialBackoffWithJitter.after, ih,
      ExponentialBackoffWithJitter.next, ExponentialBackoff.after]

lemma ExponentialBackoffWithJitter.underlying_after_init
    (base min_w max_w : ℚ) (rng : ℚ → ℚ → ℚ) (n : ℕ) :
    ((ExponentialBackoffWithJitter.init base min_w max_w rng).after
        n).underlying =
      (ExponentialBackoff.init base min_w max_w).value n := by
  rw [ExponentialBackoffWithJitter.after_init]
  rfl

lemma ExponentialBackoffWithJitter.value_init
    (base min_w max_w : ℚ) (rng : ℚ → ℚ → ℚ) (n : ℕ) :
    (ExponentialBackoffWithJitter.init base min_w max_w rng).value n =
      max min_w
        (rng 0
          ((ExponentialBackoffWithJitter.init base min_w max_w rng).after
              n).underlying) := by
  rw [ExponentialBackoffWithJitter.value,
    ExponentialBackoffWithJitter.after_init]
  rfl

/-- C6: when the random draw `r = rng(0, u)` for the underlying value `u`
of the internal `ExponentialBackoff` with the same parameters satisfies
`0 ≤ r < u` (the contract of the injected rng on the call the generator
makes), and `0 ≤ min_wait_seconds ≤ max_wait_seconds`, each emitted value
equals `max(min_wait_seconds, r)`, is at least `min_wait_seconds`, is
below `u` or equal to `min_wait_seconds`, and never exceeds
`max_wait_seconds`. -/
theorem jitter_value_bounds (base min_w max_w : ℚ) (rng : ℚ → ℚ → ℚ) (n : ℕ)
    (hmm : min_w ≤ max_w) (h0 : 0 ≤ min_w)
    (hr1 : 0 ≤ rng 0
      ((ExponentialBackoffWithJitter.init base min_w max_w rng).after
          n).underlying)
    (hr2 : rng 0
        ((ExponentialBackoffWithJitter.init base min_w max_w rng).after
            n).underlying <
      ((ExponentialBackoffWithJitter.init base min_w max_w rng).after
          n).underlying) :
    (ExponentialBackoffWithJitter.init base min_w max_w rng).value n =
      max min_w
        (rng 0
          ((ExponentialBackoffWithJitter.init base min_w max_w rng).after
              n).underlying) ∧
    min_w ≤ (ExponentialBackoffWithJitter.init base min_w max_w rng).value n ∧
    ((ExponentialBackoffWithJitter.init base min_w max_w rng).value n <
        ((ExponentialBackoffWithJitter.init base min_w max_w rng).after
            n).underlying ∨
      (ExponentialBackoffWithJitter.init base min_w max_w rng).value n =
        min_w) ∧
    (ExponentialBackoffWithJitter.init base min_w max_w rng).value n ≤
      max_w := by
  have hu : ((ExponentialBackoffWithJitter.init base min_w max_w rng).after
      n).underlying ≤ max_w := by
    rw [ExponentialBackoffWithJitter.underlying_after_init]
    exact ExponentialBackoff.value_le_max _ _ hmm
  rw [ExponentialBackoffWithJitter.value_init]
  refine ⟨rfl, le_max_left _ _, ?_, ?_⟩
  · rcases le_or_lt
        (rng 0
          ((ExponentialBackoffWithJitter.init base min_w max_w rng).after
              n).underlying) min_w with h | h
    · exact Or.inr (max_eq_left h)
    · left
      rw [max_eq_right h.le]
      exact hr2
  · exact max_le hmm (le_trans hr2.le hu)

theorem jitter_value_bounds_witness :
    (ExponentialBackoffWithJitter.init 1 0 30 (fun lo _ => lo)).value 0 =
      max 0
        ((fun lo _ => lo) 0
          ((ExponentialBackoffWithJitter.init 1 0 30
              (fun lo _ => lo)).after 0).underlying) ∧
    (0 : ℚ) ≤
      (ExponentialBackoffWithJitter.init 1 0 30 (fun lo _ => lo)).value 0 ∧
    ((ExponentialBackoffWithJitter.init 1 0 30 (fun lo _ => lo)).value 0 <
        ((ExponentialBackoffWithJitter.init 1 0 30
            (fun lo _ => lo)).after 0).underlying ∨
      (ExponentialBackoffWithJitter.init 1 0 30 (fun lo _ => lo)).value 0 =
        0) ∧
    (ExponentialBackoffWithJitter.init 1 0 30 (fun lo _ => lo)).value 0 ≤
      30 :=
  jitter_value_bounds 1 0 30 (fun lo _ => lo) 0 (by norm_num) le_rfl
    (by norm_num [ExponentialBackoffWithJitter.underlying_after_init])
    (by norm_num [ExponentialBackoffWithJitter.underlying_after_init,
      ExponentialBackoff.value_eq, ExponentialBackoff.init])

/-! Step lemmas for the retry loop. -/

lemma retryRun_nil {α ε : Type} (mr : ℤ) (retryable : ε → Bool)
    (op : ℕ → Except ε α) (i : ℕ) :
    retryRun mr retryable op i [] = ⟨RetryResult.internalBug, 0, []⟩ :=
  rfl

lemma retryRun_cons_ok {α ε : Type} (mr : ℤ) (retryable : ε → Bool)
    (op : ℕ → Except ε α) (i : ℕ) (w : ℚ) (rest : List ℚ) (a : α)
    (hop : op (i + 1) = Except.ok a) :
    retryRun mr retryable op i (w :: rest) = ⟨RetryResult.ok a, 1, []⟩ := by
  simp [retryRun, hop]

lemma retryRun_cons_noretry {α ε : Type} (mr : ℤ) (retryable : ε → Bool)
    (op : ℕ → Except ε α) (i : ℕ) (w : ℚ) (rest : List ℚ) (e : ε)
    (hop : op (i + 1) = Except.error e) (he : retryable e = false) :
    retryRun mr retryable op i (w :: rest) = ⟨RetryResult.err e, 1, []⟩ := by
  simp [retryRun, hop, he]

lemma retryRun_cons_last {α ε : Type} (mr : ℤ) (retryable : ε → Bool)
    (op : ℕ → Except ε α) (i : ℕ) (w : ℚ) (rest : List ℚ) (e : ε)
    (hop : op (i + 1) = Except.error e) (he : retryable e = true)
    (hm : ((i : ℤ) + 1) = mr) :
    retryRun mr retryable op i (w :: rest) = ⟨RetryResult.err e, 1, []⟩ := by
  simp [retryRun, hop, he, hm]

lemma retryRun_cons_retry {α ε : Type} (mr : ℤ) (retryable : ε → Bool)
    (op : ℕ → Except ε α) (i : ℕ) (w : ℚ) (rest : List ℚ) (e : ε)
    (hop : op (i + 1) = Except.error e) (he : retryable e = true)
    (hm : ((i : ℤ) + 1) ≠ mr) :
    retryRun mr retryable op i (w :: rest) =
      ⟨(retryRun mr retryable op (i + 1) rest).result,
       (retryRun mr retryable op (i + 1) rest).calls + 1,
       w :: (retryRun mr retryable op (i + 1) rest).sleeps⟩ := by
  simp [retryRun, hop, he, hm]

/-- Skipping a block of retryable failures: if every attempt numbered in
`(i, k]` fails with a retryable error and is not the last allowed attempt,
the run from index `i` is the run from index `k` with `k - i` extra calls
and the first `k - i` waits slept. -/
lemma retryRun_skip {α ε : Type} (mr : ℤ) (retryable : ε → Bool)
    (op : ℕ → Except ε α) (errs : ℕ → ε) :
    ∀ (waits : List ℚ) (i k : ℕ), i ≤ k → k - i ≤ waits.length →
    (∀ n, i < n → n ≤ k → op n = Except.error (errs n) ∧
       retryable (errs n) = true ∧ ((n : ℤ) ≠ mr)) →
    retryRun mr retryable op i waits =
      ⟨(retryRun mr retryable op k (waits.drop (k - i))).result,
       (retryRun mr retryable op k (waits.drop (k - i))).calls + (k - i),
       waits.take (k - i) ++
         (retryRun mr retryable op k (waits.drop (k - i))).sleeps⟩ := by
  intro waits
  induction waits with
  | nil =>
    intro i k hik hlen h
    have hk : k = i := by
      simp only [List.length_nil] at hlen
      omega
    subst hk
    simp [retryRun_nil]
  | cons w rest ih =>
    intro i k hik hlen h
    rcases Nat.eq_or_lt_of_le hik with heq | hlt
    · subst heq
      simp
    · have h1 := h (i + 1) (by omega) (by omega)
      have hm : ((i : ℤ) + 1) ≠ mr := by
        have h2 := h1.2.2
        push_cast at h2
        exact h2
      have hki : k - i = (k - (i + 1)) + 1 := by omega
      have hstep := retryRun_cons_retry mr retryable op i w rest
        (errs (i + 1)) h1.1 h1.2.1 hm
      have hrec := ih (i + 1) k (by omega)
        (by simp only [List.length_cons] at hlen; omega)
        (fun n hn1 hn2 => h n (by omega) hn2)
      rw [hstep, hrec, hki]
      simp [List.take_succ_cons, List.drop_succ_cons]
      omega

lemma drop_eq_cons_of_lt_length {β : Type} (l : List β) (j : ℕ)
    (h : j < l.length) : ∃ w rest, l.drop j = w :: rest := by
  apply List.exists_cons_of_ne_nil
  apply List.ne_nil_of_length_pos
  simp [List.length_drop]
  omega

/-- C2: with `max_retries = m ≥ 1` and an operation that fails with a
retryable error on every attempt, the wrapped call invokes the operation
exactly `m` times and raises the error from the last (`m`-th) attempt
unchanged. -/
theorem retry_allfail_exhausts {α ε : Type} (m : ℕ) (retryable : ε → Bool)
    (op : ℕ → Except ε α) (errs : ℕ → ε) (waits : List ℚ)
    (hm : 1 ≤ m) (hw : m ≤ waits.length)
    (hop : ∀ n, 1 ≤ n → op n = Except.error (errs n))
    (hret : ∀ n, 1 ≤ n → retryable (errs n) = true) :
    (RetryOnException.call (m : ℤ) retryable op waits).result =
      RetryResult.err (errs m) ∧
    (RetryOnException.call (m : ℤ) retryable op waits).calls = m := by
  obtain ⟨w, rest, hdrop⟩ := drop_eq_cons_of_lt_length waits (m - 1)
    (by omega)
  have hskip := retryRun_skip (m : ℤ) retryable op errs waits 0 (m - 1)
    (by omega) (by omega)
    (fun n hn1 hn2 => ⟨hop n (by omega), hret n (by omega), by omega⟩)
  have hlast := retryRun_cons_last (m : ℤ) retryable op (m - 1) w rest
    (errs m) (by rw [show m - 1 + 1 = m by omega]; exact hop m hm)
    (hret m hm) (by omega)
  rw [RetryOnException.call, hskip, Nat.sub_zero, hdrop, hlast]
  refine ⟨rfl, ?_⟩
  show 1 + (m - 1) = m
  omega

theorem retry_allfail_exhausts_witness :
    (RetryOnException.call ((2 : ℕ) : ℤ) (fun _ : ℕ => true)
        (fun _ => (Except.error 7 : Except ℕ ℕ)) [0, 1]).result =
      RetryResult.err 7 ∧
    (RetryOnException.call ((2 : ℕ) : ℤ) (fun _ : ℕ => true)
        (fun _ => (Except.error 7 : Except ℕ ℕ)) [0, 1]).calls = 2 :=
  retry_allfail_exhausts 2 (fun _ => true) (fun _ => Except.error 7)
    (fun _ => 7) [0, 1] (by norm_num) (by norm_num)
    (fun _ _ => rfl) (fun _ _ => rfl)

/-- C4: if the operation succeeds on attempt `k ≤ max_retries` after
retryable failures on attempts `1..k-1`, the wrapped call invokes the
operation exactly `k` times, returns the operation's result unchanged, and
sleeps only for the `k - 1` waits before the successful attempt (none
after it). -/
theorem retry_success_returns {α ε : Type} (m k : ℕ) (retryable : ε → Bool)
    (op : ℕ → Except ε α) (errs : ℕ → ε) (a : α) (waits : List ℚ)
    (hk1 : 1 ≤ k) (hkm : k ≤ m) (hw : k ≤ waits.length)
    (hopk : op k = Except.ok a)
    (hop : ∀ n, 1 ≤ n → n < k → op n = Except.error (errs n) ∧
      retryable (errs n) = true) :
    (RetryOnException.call (m : ℤ) retryable op waits).result =
      RetryResult.ok a ∧
    (RetryOnException.call (m : ℤ) retryable op waits).calls = k ∧
    (RetryOnException.call (m : ℤ) retryable op waits).sleeps =
      waits.take (k - 1) := by
  obtain ⟨w, rest, hdrop⟩ := drop_eq_cons_of_lt_length waits (k - 1)
    (by omega)
  have hskip := retryRun_skip (m : ℤ) retryable op errs waits 0 (k - 1)
    (by omega) (by omega)
    (fun n hn1 hn2 =>
      ⟨(hop n (by omega) (by omega)).1, (hop n (by omega) (by omega)).2,
       by omega⟩)
  have hlast := retryRun_cons_ok (m : ℤ) retryable op (k - 1) w rest a
    (by rw [show k - 1 + 1 = k by omega]; exact hopk)
  rw [RetryOnException.call, hskip, Nat.sub_zero, hdrop, hlast]
  refine ⟨rfl, ?_, ?_⟩
  · show 1 + (k - 1) = k
    omega
  · show waits.take (k - 1) ++ [] = waits.take (k - 1)
    exact List.append_nil _

theorem retry_success_returns_witness :
    (RetryOnException.call ((5 : ℕ) : ℤ) (fun _ : ℕ => true)
        (fun n => if n = 3 then Except.ok 42 else Except.error n)
        [0, 1, 2, 3, 4]).result = RetryResult.ok 42 ∧
    (RetryOnException.call ((5 : ℕ) : ℤ) (fun _ : ℕ => true)
        (fun n => if n = 3 then Except.ok (42 : ℕ) else Except.error n)
        [0, 1, 2, 3, 4]).calls = 3 ∧
    (RetryOnException.call ((5 : ℕ) : ℤ) (fun _ : ℕ => true)
        (fun n => if n = 3 then Except.ok (42 : ℕ) else Except.error n)
        [0, 1, 2, 3, 4]).sleeps = [0, 1, 2, 3, 4].take (3 - 1) :=
  retry_success_returns 5 3 (fun _ => true)
    (fun n => if n = 3 then Except.ok 42 else Except.error n) (fun n => n)
    42 [0, 1, 2, 3, 4] (by norm_num) (by norm_num) (by norm_num)
    (by norm_num)
    (fun n h1 h2 => ⟨by simp [show n ≠ 3 by omega], rfl⟩)

/-- C3: if the operation's failure on attempt `f` is an error the
classifier does not retry, while every earlier attempt failed with a
retryable error that did not end the budget, the wrapped call invokes the
operation exactly `f` times, propagates that error unchanged, and sleeps
only for the `f - 1` waits before attempt `f` (no wait for attempt `f`
itself); for `f = 1` this holds for every `max_retries`. -/
theorem retry_nonretryable_propagates {α ε : Type} (mr : ℤ) (f : ℕ)
    (retryable : ε → Bool) (op : ℕ → Except ε α) (errs : ℕ → ε) (e : ε)
    (waits : List ℚ)
    (hf1 : 1 ≤ f) (hw : f ≤ waits.length)
    (hopf : op f = Except.error e) (he : retryable e = false)
    (hop : ∀ n, 1 ≤ n → n < f → op n = Except.error (errs n) ∧
      retryable (errs n) = true ∧ ((n : ℤ) ≠ mr)) :
    (RetryOnException.call mr retryable op waits).result =
      RetryResult.err e ∧
    (RetryOnException.call mr retryable op waits).calls = f ∧
    (RetryOnException.call mr retryable op waits).sleeps =
      waits.take (f - 1) := by
  obtain ⟨w, rest, hdrop⟩ := drop_eq_cons_of_lt_length waits (f - 1)
    (by omega)
  have hskip := retryRun_skip mr retryable op errs waits 0 (f - 1)
    (by omega) (by omega)
    (fun n hn1 hn2 => hop n (by omega) (by omega))
  have hlast := retryRun_cons_noretry mr retryable op (f - 1) w rest e
    (by rw [show f - 1 + 1 = f by omega]; exact hopf) he
  rw [RetryOnException.call, hskip, Nat.sub_zero, hdrop, hlast]
  refine ⟨rfl, ?_, ?_⟩
  · show 1 + (f - 1) = f
    omega
  · show waits.take (f - 1) ++ [] = waits.take (f - 1)
    exact List.append_nil _

theorem retry_nonretryable_propagates_witness :
    (RetryOnException.call (5 : ℤ) (fun e : ℕ => e == 0)
        (fun _ => (Except.error 9 : Except ℕ ℕ)) [0, 1, 2]).result =
      RetryResult.err 9 ∧
    (RetryOnException.call (5 : ℤ) (fun e : ℕ => e == 0)
        (fun _ => (Except.error 9 : Except ℕ ℕ)) [0, 1, 2]).calls = 1 ∧
    (RetryOnException.call (5 : ℤ) (fun e : ℕ => e == 0)
        (fun _ => (Except.error 9 : Except ℕ ℕ)) [0, 1, 2]).sleeps =
      [0, 1, 2].take (1 - 1) :=
  retry_nonretryable_propagates 5 1 (fun e => e == 0)
    (fun _ => Except.error 9) (fun n => n) 9 [0, 1, 2] (by norm_num)
    (by norm_num) rfl rfl (fun n h1 h2 => absurd h2 (by omega))

lemma retryRun_ne_internalBug {α ε : Type} (m : ℕ) (retryable : ε → Bool)
    (op : ℕ → Except ε α) :
    ∀ (waits : List ℚ) (i : ℕ), i < m → m - i ≤ waits.length →
    (retryRun (m : ℤ) retryable op i waits).result ≠
      RetryResult.internalBug := by
  intro waits
  induction waits with
  | nil =>
    intro i h1 h2
    simp only [List.length_nil] at h2
    omega
  | cons w rest ih =>
    intro i h1 h2
    cases hop : op (i + 1) with
    | ok a =>
      rw [retryRun_cons_ok (m : ℤ) retryable op i w rest a hop]
      simp
    | error e =>
      cases he : retryable e with
      | false =>
        rw [retryRun_cons_noretry (m : ℤ) retryable op i w rest e hop he]
        simp
      | true =>
        by_cases hm : ((i : ℤ) + 1) = (m : ℤ)
        · rw [retryRun_cons_last (m : ℤ) retryable op i w rest e hop he hm]
          simp
        · rw [retryRun_cons_retry (m : ℤ) retryable op i w rest e hop he hm]
          exact ih (i + 1) (by omega)
            (by simp only [List.length_cons] at h2; omega)

/-- C8: with `max_retries = m ≥ 1` and a backoff sequence long enough to
cover the budget (as an infinite sequence always is), the wrapped call
never reaches the final internal-invariant raise, whatever the operation
does; conversely, whenever that branch is reached the iterator supplied
fewer than `m` values, i.e. the sequence was finite. -/
theorem retry_internalBug_unreachable {α ε : Type} (m : ℕ)
    (retryable : ε → Bool) (op : ℕ → Except ε α) (waits : List ℚ)
    (hm : 1 ≤ m) (hw : m ≤ waits.length) :
    (RetryOnException.call (m : ℤ) retryable op waits).result ≠
      RetryResult.internalBug ∧
    ∀ waits2 : List ℚ,
      (RetryOnException.call (m : ℤ) retryable op waits2).result =
        RetryResult.internalBug → waits2.length < m := by
  constructor
  · exact retryRun_ne_internalBug m retryable op waits 0 (by omega)
      (by omega)
  · intro waits2 hbug
    by_contra hlen
    push_neg at hlen
    exact retryRun_ne_internalBug m retryable op waits2 0 (by omega)
      (by omega) hbug

theorem retry_internalBug_unreachable_witness :
    (RetryOnException.call ((1 : ℕ) : ℤ) (fun _ : ℕ => true)
        (fun _ => (Except.ok 0 : Except ℕ ℕ)) [0]).result ≠
      RetryResult.internalBug ∧
    ∀ waits2 : List ℚ,
      (RetryOnException.call ((1 : ℕ) : ℤ) (fun _ : ℕ => true)
          (fun _ => (Except.ok 0 : Except ℕ ℕ)) waits2).result =
        RetryResult.internalBug → waits2.length < 1 :=
  retry_internalBug_unreachable 1 (fun _ => true) (fun _ => Except.ok 0)
    [0] (by norm_num) (by norm_num)

/-- C9: constructing `RetryOnException` with an empty
`retry_on_exceptions` list yields the same classifier tuple as passing
`None` — the match-all `(Exception,)` — so every raised error is caught as
retryable. -/
theorem retryOn_empty_list_matches_all :
    initRetryOn (some []) = initRetryOn none ∧
    ∀ e : ExcClass, caughtBy (initRetryOn (some [])) e = true := by
  refine ⟨rfl, fun e => ?_⟩
  simp [initRetryOn, caughtBy, ExcClass.isinstance]

/-- C10: with `max_retries < 1` (zero or negative) and an operation that
fails with a retryable error on every attempt, the
`attempt_number == max_retries` check never fires, so for every finite
prefix of the backoff sequence the loop consumes the whole prefix,
invoking the operation and sleeping once per element, without returning or
propagating an error: over the infinite sequence the wrapped call never
terminates. -/
theorem retry_nonpositive_budget_never_stops {α ε : Type} (mr : ℤ)
    (retryable : ε → Bool) (op : ℕ → Except ε α) (errs : ℕ → ε)
    (hmr : mr < 1)
    (hop : ∀ n, 1 ≤ n → op n = Except.error (errs n))
    (hret : ∀ n, 1 ≤ n → retryable (errs n) = true) :
    ∀ waits : List ℚ,
      RetryOnException.call mr retryable op waits =
        ⟨RetryResult.internalBug, waits.length, waits⟩ := by
  intro waits
  have hskip := retryRun_skip mr retryable op errs waits 0 waits.length
    (by omega) (by omega)
    (fun n hn1 hn2 => ⟨hop n (by omega), hret n (by omega), by omega⟩)
  rw [RetryOnException.call, hskip, Nat.sub_zero, List.drop_length,
    retryRun_nil, List.take_length]
  show (⟨RetryResult.internalBug, 0 + waits.length, waits ++ []⟩ :
      RunOutcome α ε) = ⟨RetryResult.internalBug, waits.length, waits⟩
  rw [Nat.zero_add, List.append_nil]

theorem retry_nonpositive_budget_never_stops_witness :
    RetryOnException.call (0 : ℤ) (fun _ : ℕ => true)
        (fun _ => (Except.error 3 : Except ℕ ℕ)) [0, 1] =
      ⟨RetryResult.internalBug, 2, [0, 1]⟩ :=
  retry_nonpositive_budget_never_stops 0 (fun _ => true)
    (fun _ => Except.error 3) (fun _ => 3) (by norm_num)
    (fun _ _ => rfl) (fun _ _ => rfl) [0, 1]

end Resilience
